import Mathlib

/-!
Verification of the SMART planner training core (`browser-native-llm/training`).

The Python source operates on torch tensors of floats; here real numbers
stand for floats, tensors become lists (dynamic axes: batch, sequence) of
functions (static axes: channels, vocabulary), and each Python function is
translated definition-by-definition.  File/line references point into the
repository sources (`architecture.py`, `sft.py`, `dpo.py`).
-/

namespace SmartTool

open Real Finset

/-! ## Scalar activations

`torch.sigmoid`, `F.logsigmoid`, `F.silu` as real functions. -/

/-- Logistic sigmoid, `torch.sigmoid(x) = 1 / (1 + exp(-x))`. -/
noncomputable def sigmoid (x : ℝ) : ℝ := 1 / (1 + Real.exp (-x))

/-- Log of the sigmoid, `F.logsigmoid(x)`. -/
noncomputable def logsigmoid (x : ℝ) : ℝ := Real.log (sigmoid x)

/-- SiLU activation, `F.silu(x) = x * sigmoid(x)`. -/
noncomputable def silu (x : ℝ) : ℝ := x * sigmoid x

/-! ## DPO loss (`dpo.py`, `dpo_loss`, lines 75-103)

The Python function takes per-example tensors and returns `losses.mean()`;
for one example (a single scalar per argument) the mean of one element is
the element itself, so the scalar translation below is exact. -/

/-- `dpo_loss` from `dpo.py` lines 75-103: rewards are `beta * (policy - ref)`
log-probability differences, `logits` is their difference, and the loss is
the (optionally label-smoothed) negative log-sigmoid of `logits`. -/
noncomputable def dpo_loss (policy_chosen_logps policy_rejected_logps
    ref_chosen_logps ref_rejected_logps : ℝ)
    (beta : ℝ) (label_smoothing : ℝ) : ℝ :=
  let chosen_rewards := beta * (policy_chosen_logps - ref_chosen_logps)
  let rejected_rewards := beta * (policy_rejected_logps - ref_rejected_logps)
  let logits := chosen_rewards - rejected_rewards
  if 0 < label_smoothing then
    -logsigmoid logits * (1 - label_smoothing) - logsigmoid (-logits) * label_smoothing
  else
    -logsigmoid logits

/-- The DPO loss as a function of the preference margin alone. -/
noncomputable def dpoLossOfMargin (m : ℝ) : ℝ := -logsigmoid m

/-! ## Model configuration (`architecture.py`, `ModelConfig`, lines 22-42) -/

/-- `ModelConfig` from `architecture.py`: architecture hyperparameters.
`dropout` is omitted: every claim is settled at dropout 0 / eval behaviour,
where `nn.Dropout` is the identity. -/
structure ModelConfig where
  d_model : ℕ
  n_layers : ℕ
  n_heads : ℕ
  n_kv_heads : ℕ
  d_ff : ℕ
  vocab_size : ℕ
  max_seq_length : ℕ
  norm_eps : ℝ
  rope_theta : ℝ

namespace ModelConfig

/-- `ModelConfig.head_dim`: `d_model // n_heads`. -/
def head_dim (cfg : ModelConfig) : ℕ := cfg.d_model / cfg.n_heads

/-- `ModelConfig.kv_repeat`: `n_heads // n_kv_heads`. -/
def kv_repeat (cfg : ModelConfig) : ℕ := cfg.n_heads / cfg.n_kv_heads

end ModelConfig

/-! ## Rotary position embedding (`architecture.py` lines 61-86)

`precompute_rope_freqs` stores, for position `t` and frequency index `i`,
the unit complex number of angle `t * (1 / theta ^ ((2*i)/dim))`
(`torch.polar(1, angle) = cos angle + I * sin angle`).  `apply_rope` views
each head vector as adjacent (real, imaginary) pairs and multiplies pair
`i` at position `t` by that unit complex number. -/

/-- Rotation angle of position `t`, frequency index `i`
(`precompute_rope_freqs`: `freqs = 1/theta^(arange(0,dim,2)/dim)`, then
`outer(t, freqs)`; entry `i` of `arange(0, dim, 2)` is `2*i`). -/
noncomputable def ropeAngle (cfg : ModelConfig) (t i : ℕ) : ℝ :=
  (t : ℝ) * (1 / cfg.rope_theta ^ ((2 * (i : ℝ)) / (cfg.head_dim : ℝ)))

/-- `apply_rope` on one head vector at position `t`: complex multiplication
`(v[2i] + I*v[2i+1]) * (cos + I*sin)` written out on the flattened pairs. -/
noncomputable def applyRopeVec (cfg : ModelConfig) (t : ℕ) (v : ℕ → ℝ) : ℕ → ℝ :=
  fun j =>
    if j % 2 = 0 then
      v j * Real.cos (ropeAngle cfg t (j / 2)) - v (j + 1) * Real.sin (ropeAngle cfg t (j / 2))
    else
      v (j - 1) * Real.sin (ropeAngle cfg t (j / 2)) + v j * Real.cos (ropeAngle cfg t (j / 2))

/-- Euclidean norm of the first `dim` components of a head vector. -/
noncomputable def vecNorm (dim : ℕ) (v : ℕ → ℝ) : ℝ :=
  Real.sqrt (∑ j ∈ Finset.range dim, v j ^ 2)

/-! ## Grouped-query KV expansion (`architecture.py`, `repeat_kv`, lines 89-95)

The tensor `x` of shape (bs, n_kv_heads, seq, hd) is expanded along a new
axis to (bs, n_kv_heads, n_rep, seq, hd) and reshaped to
(bs, n_kv_heads*n_rep, seq, hd): along the head axis this replicates each
kv head `n_rep` times contiguously.  We model the head axis as a list. -/

/-- Replicate every element of a list `n_rep` times contiguously
(the `expand` + `reshape` of `repeat_kv` along the head axis). -/
def repeatHeads {α : Type} (n_rep : ℕ) : List α → List α
  | [] => []
  | a :: xs => List.replicate n_rep a ++ repeatHeads n_rep xs

/-- `repeat_kv` from `architecture.py` lines 89-95, including the
early-return identity branch for `n_rep == 1`. -/
def repeat_kv {α : Type} (n_rep : ℕ) (x : List α) : List α :=
  if n_rep = 1 then x else repeatHeads n_rep x

/-! ## Linear layers and RMSNorm (`architecture.py` lines 48-58, 108-111) -/

/-- `nn.Linear(dIn, dOut, bias=False)`: `out[f] = Σ_c W[f,c] * x[c]`. -/
noncomputable def linear (dIn : ℕ) (W : ℕ → ℕ → ℝ) (x : ℕ → ℝ) : ℕ → ℝ :=
  fun f => ∑ c ∈ Finset.range dIn, W f c * x c

/-- `RMSNorm.forward` (lines 56-58): `x * rsqrt(mean(x²) + eps) * weight`,
with the mean taken over the `dim` channels (`rsqrt t = 1/sqrt t`;
the float32 upcast is exact here since reals model all floats). -/
noncomputable def rmsnorm (dim : ℕ) (eps : ℝ) (w : ℕ → ℝ) (x : ℕ → ℝ) : ℕ → ℝ :=
  fun i => x i * (Real.sqrt ((∑ j ∈ Finset.range dim, x j ^ 2) / (dim : ℝ) + eps))⁻¹ * w i

/-! ## Weight record

One field per trainable tensor of `SmartPlannerModel`; matrices are total
functions with their shapes recorded by the config.  The output projection
has no field of its own: `__init__` line 201
(`self.output.weight = self.token_embedding.weight`) ties it to the
embedding matrix, so `forward` reads `token_embedding` in both roles. -/

structure AttnWeights where
  wq : ℕ → ℕ → ℝ
  wk : ℕ → ℕ → ℝ
  wv : ℕ → ℕ → ℝ
  wo : ℕ → ℕ → ℝ

structure FFNWeights where
  w1 : ℕ → ℕ → ℝ
  w2 : ℕ → ℕ → ℝ
  w3 : ℕ → ℕ → ℝ

structure BlockWeights where
  attention : AttnWeights
  ffn : FFNWeights
  attention_norm : ℕ → ℝ
  ffn_norm : ℕ → ℝ

structure ModelWeights where
  token_embedding : ℕ → ℕ → ℝ
  layers : List BlockWeights
  norm : ℕ → ℝ

/-! ## Grouped-query attention (`architecture.py` lines 115-144)

Hidden states of one sequence are `h : ℕ → ℕ → ℝ` (position → channel),
meaningful on positions `< L`.  Query head `hd` occupies rows
`[hd*head_dim, (hd+1)*head_dim)` of the `wq` output (the `view`/`transpose`
at lines 124-126), and after `repeat_kv` (lines 132-133) reads kv head
`hd / kv_repeat` (flat index `g*n_rep + r` of the reshape maps to kv head
`g`, see the `repeat_kv` theorems below). -/

/-- Query projection of position `t`, head `hd` (line 124). -/
noncomputable def qProj (cfg : ModelConfig) (aw : AttnWeights) (h : ℕ → ℕ → ℝ)
    (t hd : ℕ) : ℕ → ℝ :=
  fun j => linear cfg.d_model aw.wq (h t) (hd * cfg.head_dim + j)

/-- Key projection of position `u`, kv head `g` (line 125). -/
noncomputable def kProj (cfg : ModelConfig) (aw : AttnWeights) (h : ℕ → ℕ → ℝ)
    (u g : ℕ) : ℕ → ℝ :=
  fun j => linear cfg.d_model aw.wk (h u) (g * cfg.head_dim + j)

/-- Value projection of position `u`, kv head `g` (line 126). -/
noncomputable def vProj (cfg : ModelConfig) (aw : AttnWeights) (h : ℕ → ℕ → ℝ)
    (u g : ℕ) : ℕ → ℝ :=
  fun j => linear cfg.d_model aw.wv (h u) (g * cfg.head_dim + j)

/-- Rotated query (line 129). -/
noncomputable def qRot (cfg : ModelConfig) (aw : AttnWeights) (h : ℕ → ℕ → ℝ)
    (t hd : ℕ) : ℕ → ℝ :=
  applyRopeVec cfg t (qProj cfg aw h t hd)

/-- Rotated key (line 129). -/
noncomputable def kRot (cfg : ModelConfig) (aw : AttnWeights) (h : ℕ → ℕ → ℝ)
    (u g : ℕ) : ℕ → ℝ :=
  applyRopeVec cfg u (kProj cfg aw h u g)

/-- Attention score of query position `t`, head `hd`, key position `u`
(line 136): `q · kᵀ / sqrt(head_dim)`, key head via `repeat_kv`. -/
noncomputable def attnScore (cfg : ModelConfig) (aw : AttnWeights) (h : ℕ → ℕ → ℝ)
    (t hd u : ℕ) : ℝ :=
  (∑ j ∈ Finset.range cfg.head_dim,
      qRot cfg aw h t hd j * kRot cfg aw h u (hd / cfg.kv_repeat) j) /
    Real.sqrt (cfg.head_dim : ℝ)

/-- Post-softmax attention weight (lines 137-139).  The causal mask
(`__init__` lines 210-213) adds `-inf` strictly above the diagonal and `0`
at or below it; a softmax row with `-inf` entries carries exactly zero
mass there (`exp(-inf) = 0`), and its denominator is the sum over the
unmasked entries `u' ≤ t` only. -/
noncomputable def attnWeight (cfg : ModelConfig) (aw : AttnWeights) (h : ℕ → ℕ → ℝ)
    (t hd u : ℕ) : ℝ :=
  if u ≤ t then
    Real.exp (attnScore cfg aw h t hd u) /
      ∑ u' ∈ Finset.range (t + 1), Real.exp (attnScore cfg aw h t hd u')
  else 0

/-- Attention-weighted value (line 142), value head via `repeat_kv`. -/
noncomputable def attnCtx (cfg : ModelConfig) (aw : AttnWeights) (L : ℕ)
    (h : ℕ → ℕ → ℝ) (t hd j : ℕ) : ℝ :=
  ∑ u ∈ Finset.range L, attnWeight cfg aw h t hd u * vProj cfg aw h u (hd / cfg.kv_repeat) j

/-- `GroupedQueryAttention.forward` (lines 115-144): heads concatenated
(flat feature `f` belongs to head `f / head_dim`, component `f % head_dim`)
then the output projection `wo`.  Dropout (line 140) is the identity at
dropout probability 0 / eval behaviour. -/
noncomputable def attention (cfg : ModelConfig) (aw : AttnWeights) (L : ℕ)
    (h : ℕ → ℕ → ℝ) : ℕ → ℕ → ℝ :=
  fun t c => ∑ f ∈ Finset.range (cfg.n_heads * cfg.head_dim),
    aw.wo c f * attnCtx cfg aw L h t (f / cfg.head_dim) (f % cfg.head_dim)

/-- `SwiGLUFFN.forward` (line 158): `w2(silu(w1 x) * w3 x)`, dropout
identity at probability 0. -/
noncomputable def ffnForward (cfg : ModelConfig) (fw : FFNWeights) (x : ℕ → ℝ) : ℕ → ℝ :=
  fun c => ∑ f ∈ Finset.range cfg.d_ff,
    fw.w2 c f * (silu (linear cfg.d_model fw.w1 x f) * linear cfg.d_model fw.w3 x f)

/-- First statement of `TransformerBlock.forward` (line 178):
`x = x + attention(attention_norm(x), freqs, mask)`, the norm applied per
position. -/
noncomputable def blockAttnStage (cfg : ModelConfig) (bw : BlockWeights) (L : ℕ)
    (h : ℕ → ℕ → ℝ) : ℕ → ℕ → ℝ :=
  fun t c => h t c +
    attention cfg bw.attention L
      (fun u => rmsnorm cfg.d_model cfg.norm_eps bw.attention_norm (h u)) t c

/-- `TransformerBlock.forward` (lines 171-180): pre-norm residual
composition — the attention stage above followed by the second statement
(line 179) `x = x + ffn(ffn_norm(x))`. -/
noncomputable def blockForward (cfg : ModelConfig) (bw : BlockWeights) (L : ℕ)
    (h : ℕ → ℕ → ℝ) : ℕ → ℕ → ℝ :=
  fun t c => blockAttnStage cfg bw L h t c +
    ffnForward cfg bw.ffn
      (rmsnorm cfg.d_model cfg.norm_eps bw.ffn_norm (blockAttnStage cfg bw L h t)) c

/-! ## Model forward (`architecture.py`, `SmartPlannerModel.forward`, 226-258) -/

/-- Embedding lookup of a token-id sequence (line 236); `getD _ 0` reads
position `u` of the sequence (out-of-range positions are never used). -/
noncomputable def embedSeq (w : ModelWeights) (seq : List ℕ) : ℕ → ℕ → ℝ :=
  fun u => w.token_embedding (seq.getD u 0)

/-- Hidden state after the whole block stack (lines 239-240). -/
noncomputable def hiddenFinal (cfg : ModelConfig) (w : ModelWeights) (seq : List ℕ) :
    ℕ → ℕ → ℝ :=
  w.layers.foldl (fun h bw => blockForward cfg bw seq.length h) (embedSeq w seq)

/-- Logits of position `t` (lines 242-243): final RMSNorm then the output
projection, whose weight matrix is the embedding matrix (tying, line 201). -/
noncomputable def logitsAt (cfg : ModelConfig) (w : ModelWeights) (seq : List ℕ)
    (t : ℕ) : Fin cfg.vocab_size → ℝ :=
  fun v => ∑ j ∈ Finset.range cfg.d_model,
    w.token_embedding v j * rmsnorm cfg.d_model cfg.norm_eps w.norm (hiddenFinal cfg w seq t) j

/-- All per-position logits of one sequence: a list of length `seq.length`,
each entry a vocabulary-indexed row. -/
noncomputable def forwardSeq (cfg : ModelConfig) (w : ModelWeights) (seq : List ℕ) :
    List (Fin cfg.vocab_size → ℝ) :=
  (List.range seq.length).map (logitsAt cfg w seq)

/-- `SmartPlannerModel.forward` on a batch whose rows have length `L`:
the assert at lines 232-234 raises (modelled as `none`) exactly when
`seq_len > max_seq_length`; otherwise the logits tensor is returned. -/
noncomputable def forward (cfg : ModelConfig) (w : ModelWeights)
    (batch : List (List ℕ)) (L : ℕ) : Option (List (List (Fin cfg.vocab_size → ℝ))) :=
  if L ≤ cfg.max_seq_length then some (batch.map (forwardSeq cfg w)) else none

/-! ## Cross-entropy with ignore index (`architecture.py` lines 247-256)

`F.cross_entropy(..., ignore_index=-100)` with the default mean reduction:
positions whose target is `-100` are dropped, the remaining negative
log-softmax values are averaged over the number of kept positions. -/

/-- Positions whose target enters the cross-entropy (target ≠ -100). -/
def cePositions (labels : List ℤ) : List ℕ :=
  (List.range labels.length).filter (fun t => labels.getD t 0 ≠ -100)

/-- `F.log_softmax` of a logit row at a vocabulary index. -/
noncomputable def logSoftmaxAt {V : ℕ} (z : Fin V → ℝ) (i : Fin V) : ℝ :=
  z i - Real.log (∑ v, Real.exp (z v))

/-- Negative log-likelihood of one target.  Torch raises on an in-loss
target outside `[0, V)`; the repo's tokenisers only produce ids
`< 32000 = vocab_size`, so the fallback 0 branch is never reached on the
inputs the claims quantify over. -/
noncomputable def nll {V : ℕ} (z : Fin V → ℝ) (label : ℤ) : ℝ :=
  if h : label.toNat < V then -logSoftmaxAt z ⟨label.toNat, h⟩ else 0

/-- `F.cross_entropy(view(-1, V), view(-1), ignore_index=-100)`:
mean of the kept positions' negative log-softmax values. -/
noncomputable def crossEntropyIgnore {V : ℕ} (logits : List (Fin V → ℝ))
    (labels : List ℤ) : ℝ :=
  ((cePositions labels).map
      (fun t => nll (logits.getD t (fun _ => 0)) (labels.getD t 0))).sum /
    ((cePositions labels).length : ℝ)

/-- The labelled loss of `SmartPlannerModel.forward` (lines 247-256):
logits lose their last position, labels their first (next-token shift),
then cross-entropy with ignore index -100. -/
noncomputable def sftLoss {V : ℕ} (logits : List (Fin V → ℝ)) (labels : List ℤ) : ℝ :=
  crossEntropyIgnore logits.dropLast (labels.drop 1)

/-- Label positions (in unshifted coordinates) consumed as targets by
`sftLoss`: position `t+1` for every kept shifted position `t`. -/
def targetPositions (labels : List ℤ) : List ℕ :=
  (cePositions (labels.drop 1)).map (fun t => t + 1)

/-! ## Character-level placeholder tokeniser

`sft.py` lines 58-59 and `dpo.py` lines 70-71 contain the identical
placeholder: `ord(c) % 32000` over the first `max_seq_length` characters,
padded with token id 0 up to `max_seq_length`. -/

def charTokenize (maxLen : ℕ) (text : List Char) : List ℕ :=
  let tokens := (text.take maxLen).map (fun c => c.toNat % 32000)
  tokens ++ List.replicate (maxLen - tokens.length) 0

/-! ## SFT dataset (`sft.py`, `SFTDataset.__getitem__`, lines 46-71) -/

/-- `full_text` (lines 51-55): system, user and assistant texts joined by
double newlines. -/
def fullText (system user assistant : List Char) : List Char :=
  system ++ ['\n', '\n'] ++ user ++ ['\n', '\n'] ++ assistant

/-- The labels built at lines 62-69: a clone of `input_ids`, and when
`mask_input` is set, positions `< min(len(full) - len(assistant), maxLen)`
overwritten with -100. -/
def sftLabels (maxLen : ℕ) (mask_input : Bool)
    (system user assistant : List Char) : List ℤ :=
  let full := fullText system user assistant
  let input_ids := charTokenize maxLen full
  let labels : List ℤ := input_ids.map Int.ofNat
  if mask_input then
    let input_length := full.length - assistant.length
    let mask_length := min input_length maxLen
    labels.mapIdx (fun t v => if t < mask_length then -100 else v)
  else labels

/-! ## DPO dataset (`dpo.py`, `DPODataset`, lines 27-72) -/

/-- One line of a preference jsonl file after `json.loads`: `none` stands
for a line that is not valid JSON (where `json.loads` raises), `some r`
for a parsed record whose three fields may each be absent. -/
structure PrefRecord where
  prompt : Option String
  chosen : Option String
  rejected : Option String
  deriving DecidableEq

/-- The `__init__` loading loop (lines 40-43): `record = json.loads(line)`
raises `JSONDecodeError` on a malformed line and the exception propagates
out of the dataset constructor, aborting the load; parsed records are
appended unconditionally — nothing is skipped. -/
def loadPairs : List (Option PrefRecord) → Except String (List PrefRecord)
  | [] => .ok []
  | none :: _ => .error "json.loads: JSONDecodeError"
  | some r :: rest => (loadPairs rest).map (fun rs => r :: rs)

/-- The item produced by `DPODataset.__getitem__`. -/
structure DPOItem where
  chosen_ids : List ℕ
  rejected_ids : List ℕ
  prompt_length : ℕ

/-- `__getitem__` (lines 48-67): missing fields default to the empty string
(`pair.get(..., "")`), prompt and continuation joined by one newline,
tokenised by the shared placeholder tokeniser; `prompt_length` is the
character length of the prompt clamped to `max_seq_length`. -/
def dpoGetItem (maxLen : ℕ) (pair : PrefRecord) : DPOItem :=
  let prompt := (pair.prompt.getD "").toList
  let chosen := (pair.chosen.getD "").toList
  let rejected := (pair.rejected.getD "").toList
  { chosen_ids := charTokenize maxLen (prompt ++ ['\n'] ++ chosen)
    rejected_ids := charTokenize maxLen (prompt ++ ['\n'] ++ rejected)
    prompt_length := min prompt.length maxLen }

/-- `get_log_probs` (dpo.py lines 106-127).  The slices `[pl-1:-1]` and
`[pl:]` pair the logit row at position `prompt_length - 1 + r` with the
realised token at position `prompt_length + r`; each per-token log-softmax
value is multiplied by the padding mask `(label != 0).float()`, so a
position whose token id is 0 contributes the term 0. -/
noncomputable def get_log_probs (cfg : ModelConfig) (w : ModelWeights)
    (input_ids : List ℕ) (prompt_length : ℕ) : ℝ :=
  ∑ r ∈ Finset.range (input_ids.length - prompt_length),
    (if input_ids.getD (prompt_length + r) 0 = 0 then 0
     else if hv : input_ids.getD (prompt_length + r) 0 < cfg.vocab_size then
       logSoftmaxAt (logitsAt cfg w input_ids (prompt_length - 1 + r))
         ⟨input_ids.getD (prompt_length + r) 0, hv⟩
     else 0)

/-! ## Weight tying as state (`architecture.py` line 201)

Aliasing of parameter storage is invisible to the functional translation
above, so the parameter store is modelled explicitly: buffers live on a
heap addressed by ids and each logical role (embedding, output projection)
holds a buffer id.  `__init__` creates the embedding parameter (id 0) and
a fresh output parameter (id 1), then line 201
(`self.output.weight = self.token_embedding.weight`) rebinds the output
role to the embedding parameter's id.  The optimiser step
(`AdamW.step()`, `sft.py` line 184 / `dpo.py` line 253) and
`load_state_dict` mutate buffer contents in place; neither operation
changes which buffer a role refers to. -/

structure ParamStore where
  heap : ℕ → ℕ → ℕ → ℝ
  embId : ℕ
  outId : ℕ

/-- The store right after `SmartPlannerModel.__init__`: id 0 holds the
embedding matrix, id 1 the output Linear's now-orphaned initial weight,
and line 201 has set the output role's id to the embedding's id. -/
def initStore (embInit outInit : ℕ → ℕ → ℝ) : ParamStore :=
  { heap := fun i => if i = 0 then embInit else if i = 1 then outInit else fun _ _ => 0
    embId := 0
    outId := 0 }

/-- One parameter-state mutation: an in-place optimiser step (arbitrary
per-buffer update, which covers AdamW with any optimiser state) or an
in-place `load_state_dict` copy of new values into every buffer. -/
inductive StoreOp where
  | optStep (upd : ℕ → (ℕ → ℕ → ℝ) → ℕ → ℕ → ℝ) : StoreOp
  | loadCopy (vals : ℕ → ℕ → ℕ → ℝ) : StoreOp

def applyOp : StoreOp → ParamStore → ParamStore
  | .optStep upd, s => { s with heap := fun i => upd i (s.heap i) }
  | .loadCopy vals, s => { s with heap := vals }

def runOps (ops : List StoreOp) (s : ParamStore) : ParamStore :=
  ops.foldl (fun s op => applyOp op s) s

/-- The matrix read through the output-projection role. -/
def outputWeight (s : ParamStore) : ℕ → ℕ → ℝ := s.heap s.outId

/-- The matrix read through the token-embedding role. -/
def embeddingWeight (s : ParamStore) : ℕ → ℕ → ℝ := s.heap s.embId

/-! # Theorems -/

/-! ## Helper lemmas -/

lemma neg_logsigmoid_eq (x : ℝ) : -logsigmoid x = Real.log (1 + Real.exp (-x)) := by
  unfold logsigmoid sigmoid
  rw [one_div, Real.log_inv, neg_neg]

lemma runOps_ids (ops : List StoreOp) (s : ParamStore) :
    (runOps ops s).embId = s.embId ∧ (runOps ops s).outId = s.outId := by
  induction ops generalizing s with
  | nil => exact ⟨rfl, rfl⟩
  | cons op rest ih =>
    have h := ih (applyOp op s)
    have hop : (applyOp op s).embId = s.embId ∧ (applyOp op s).outId = s.outId := by
      cases op <;> exact ⟨rfl, rfl⟩
    simp only [runOps, List.foldl_cons] at h ⊢
    exact ⟨h.1.trans hop.1, h.2.trans hop.2⟩

lemma repeatHeads_length {α : Type} (n_rep : ℕ) (x : List α) :
    (repeatHeads n_rep x).length = x.length * n_rep := by
  induction x with
  | nil => simp [repeatHeads]
  | cons a xs ih =>
    simp only [repeatHeads, List.length_append, List.length_replicate, ih, List.length_cons]
    ring

lemma repeatHeads_getD {α : Type} (n_rep : ℕ) (x : List α) (d : α) :
    ∀ hidx, hidx < x.length * n_rep →
      (repeatHeads n_rep x).getD hidx d = x.getD (hidx / n_rep) d := by
  induction x with
  | nil => intro hidx h; simp at h
  | cons a xs ih =>
    intro hidx h
    rcases Nat.eq_zero_or_pos n_rep with h0 | hn
    · subst h0; simp at h
    by_cases hlt : hidx < n_rep
    · rw [repeatHeads, List.getD_append _ _ _ _ (by simpa using hlt),
        Nat.div_eq_of_lt hlt]
      simp [List.getD, List.getElem?_replicate, hlt]
    · push_neg at hlt
      rw [repeatHeads, List.getD_append_right _ _ _ _ (by simpa using hlt),
        List.length_replicate]
      have hdiv : hidx / n_rep = (hidx - n_rep) / n_rep + 1 := by
        conv_lhs => rw [← Nat.sub_add_cancel hlt]
        rw [Nat.add_div_right _ hn]
      have hb : hidx - n_rep < xs.length * n_rep := by
        have hexp : (xs.length + 1) * n_rep = xs.length * n_rep + n_rep := by ring
        simp only [List.length_cons] at h
        omega
      rw [hdiv, ih (hidx - n_rep) hb]
      rfl

/-! ## Claim theorems -/

/-- Claim C2: the output-projection parameter and the token-embedding
parameter are the same storage at every point of the model's lifetime:
starting from the state `__init__` leaves behind (output role rebound to
the embedding buffer, line 201), after any sequence of in-place optimiser
steps and checkpoint loads the matrix read through the output role equals
the matrix read through the embedding role. -/
theorem weight_tying_c2 (embInit outInit : ℕ → ℕ → ℝ) (ops : List StoreOp) :
    outputWeight (runOps ops (initStore embInit outInit)) =
      embeddingWeight (runOps ops (initStore embInit outInit)) := by
  have h := runOps_ids ops (initStore embInit outInit)
  unfold outputWeight embeddingWeight
  rw [h.1, h.2]
  rfl

/-- Claim C4: for label smoothing `ε ≥ 0`, `dpo_loss` equals
`(1-ε)·(-logσ(margin)) + ε·(-logσ(-margin))` with
`margin = β·((policy_chosen - ref_chosen) - (policy_rejected - ref_rejected))`;
on the concrete scenario (-2, -3, -2, -2, β = 1/10, ε = 0) the margin is
1/10 and the loss is `-log(sigmoid(1/10))`, within 1/100 of 0.644. -/
theorem dpo_loss_formula_c4 :
    (∀ pc pr rc rr beta eps : ℝ, 0 ≤ eps →
      dpo_loss pc pr rc rr beta eps =
        (1 - eps) * -logsigmoid (beta * ((pc - rc) - (pr - rr))) +
          eps * -logsigmoid (-(beta * ((pc - rc) - (pr - rr))))) ∧
    dpo_loss (-2) (-3) (-2) (-2) (1/10) 0 = -logsigmoid (1/10) ∧
    |dpo_loss (-2) (-3) (-2) (-2) (1/10) 0 - 0.644| < 1/100 := by
  have hgen : ∀ pc pr rc rr beta eps : ℝ, 0 ≤ eps →
      dpo_loss pc pr rc rr beta eps =
        (1 - eps) * -logsigmoid (beta * ((pc - rc) - (pr - rr))) +
          eps * -logsigmoid (-(beta * ((pc - rc) - (pr - rr)))) := by
    intro pc pr rc rr beta eps heps
    have hm : beta * (pc - rc) - beta * (pr - rr) = beta * ((pc - rc) - (pr - rr)) := by
      ring
    simp only [dpo_loss, hm]
    by_cases hpos : 0 < eps
    · rw [if_pos hpos]; ring
    · have h0 : eps = 0 := le_antisymm (not_lt.mp hpos) heps
      subst h0; rw [if_neg hpos]; ring
  have hc : dpo_loss (-2) (-3) (-2) (-2) (1/10) 0 = -logsigmoid (1/10) := by
    rw [hgen (-2) (-3) (-2) (-2) (1/10) 0 le_rfl]
    norm_num
  refine ⟨hgen, hc, ?_⟩
  have key : -logsigmoid (1/10 : ℝ) = Real.log (1 + Real.exp (-(1/10))) :=
    neg_logsigmoid_eq _
  have hz_pos : (0:ℝ) < 1 + Real.exp (-(1/10)) := by positivity
  have exp_ub : Real.exp (1/10 : ℝ) ≤ 1.1052 := by
    have h := Real.exp_bound' (x := 1/10) (by norm_num) (by norm_num) (n := 4) (by norm_num)
    refine h.trans ?_
    norm_num [Finset.sum_range_succ, Nat.factorial]
  have exp_lb : (1.105 : ℝ) ≤ Real.exp (1/10) := by
    have h := Real.sum_le_exp_of_nonneg (x := 1/10) (by norm_num) 3
    refine le_trans ?_ h
    norm_num [Finset.sum_range_succ, Nat.factorial]
  have en_lb : (1.1052 : ℝ)⁻¹ ≤ Real.exp (-(1/10)) := by
    rw [Real.exp_neg]
    exact inv_anti₀ (Real.exp_pos _) exp_ub
  have en_ub : Real.exp (-(1/10)) ≤ (1.105 : ℝ)⁻¹ := by
    rw [Real.exp_neg]
    exact inv_anti₀ (by norm_num) exp_lb
  have hlb : Real.exp (0.634 : ℝ) < 1 + Real.exp (-(1/10)) := by
    have hub634 : Real.exp (0.634 : ℝ) ≤ 1.886 := by
      have h := Real.exp_bound' (x := 0.634) (by norm_num) (by norm_num) (n := 4) (by norm_num)
      refine h.trans ?_
      norm_num [Finset.sum_range_succ, Nat.factorial]
    have hnum : (1.886 : ℝ) < 1 + (1.1052 : ℝ)⁻¹ := by norm_num
    linarith
  have hub : 1 + Real.exp (-(1/10)) < Real.exp (0.654 : ℝ) := by
    have hlb654 : (1.922 : ℝ) ≤ Real.exp (0.654 : ℝ) := by
      have h := Real.sum_le_exp_of_nonneg (x := 0.654) (by norm_num) 5
      refine le_trans ?_ h
      norm_num [Finset.sum_range_succ, Nat.factorial]
    have hnum : (1:ℝ) + (1.105 : ℝ)⁻¹ < 1.922 := by norm_num
    linarith
  have hlog1 : (0.634 : ℝ) < Real.log (1 + Real.exp (-(1/10))) :=
    (Real.lt_log_iff_exp_lt hz_pos).2 hlb
  have hlog2 : Real.log (1 + Real.exp (-(1/10))) < 0.654 :=
    (Real.log_lt_iff_lt_exp hz_pos).2 hub
  rw [hc, key, abs_lt]
  constructor <;> [linarith; linarith]

/-- Witness for C4 at the concrete scenario: the hypothesis `0 ≤ ε` is
discharged at `ε = 0`. -/
theorem dpo_loss_formula_c4_witness :
    dpo_loss (-2) (-3) (-2) (-2) (1/10) (0:ℝ) =
      (1 - (0:ℝ)) * -logsigmoid ((1/10) * ((((-2):ℝ) - (-2)) - ((-3) - (-2)))) +
        (0:ℝ) * -logsigmoid (-((1/10) * ((((-2):ℝ) - (-2)) - ((-3) - (-2))))) :=
  dpo_loss_formula_c4.1 (-2) (-3) (-2) (-2) (1/10) 0 le_rfl

/-- Claim C5: at label smoothing 0 and `β > 0`, the DPO loss is the
margin loss at `margin = β·((pc-rc)-(pr-rr))`; it is strictly decreasing
in the policy's chosen log-probability, the margin loss tends to 0 as the
margin tends to +∞ and to +∞ as the margin tends to -∞. -/
theorem dpo_loss_monotone_c5 (pr rc rr beta : ℝ) (hbeta : 0 < beta) :
    (∀ pc, dpo_loss pc pr rc rr beta 0 = dpoLossOfMargin (beta * ((pc - rc) - (pr - rr)))) ∧
    StrictAnti (fun pc => dpo_loss pc pr rc rr beta 0) ∧
    Filter.Tendsto dpoLossOfMargin Filter.atTop (nhds 0) ∧
    Filter.Tendsto dpoLossOfMargin Filter.atBot Filter.atTop := by
  have hrepr : ∀ m : ℝ, dpoLossOfMargin m = Real.log (1 + Real.exp (-m)) := by
    intro m
    unfold dpoLossOfMargin
    exact neg_logsigmoid_eq m
  have hanti : StrictAnti dpoLossOfMargin := by
    intro m1 m2 hlt
    rw [hrepr, hrepr]
    apply Real.log_lt_log (by positivity)
    have := Real.exp_lt_exp.2 (neg_lt_neg hlt)
    linarith
  have heq : ∀ pc, dpo_loss pc pr rc rr beta 0 =
      dpoLossOfMargin (beta * ((pc - rc) - (pr - rr))) := by
    intro pc
    have hm : beta * (pc - rc) - beta * (pr - rr) = beta * ((pc - rc) - (pr - rr)) := by
      ring
    simp only [dpo_loss, dpoLossOfMargin, hm, lt_irrefl, if_false, if_neg]
  refine ⟨heq, ?_, ?_, ?_⟩
  · intro pc1 pc2 hlt
    simp only [heq]
    exact hanti (mul_lt_mul_of_pos_left (by linarith) hbeta)
  · have h0 : ∀ m : ℝ, 0 ≤ dpoLossOfMargin m := by
      intro m
      rw [hrepr]
      exact Real.log_nonneg (le_add_of_nonneg_right (Real.exp_pos _).le)
    have hle : ∀ m : ℝ, dpoLossOfMargin m ≤ Real.exp (-m) := by
      intro m
      rw [hrepr]
      have := Real.log_le_sub_one_of_pos (x := 1 + Real.exp (-m)) (by positivity)
      linarith
    exact squeeze_zero h0 hle Real.tendsto_exp_neg_atTop_nhds_zero
  · apply Filter.tendsto_atTop_mono ?_ Filter.tendsto_neg_atBot_atTop
    intro m
    rw [hrepr]
    have h1 : (0:ℝ) < Real.exp (-m) := Real.exp_pos _
    have h2 : Real.log (Real.exp (-m)) ≤ Real.log (1 + Real.exp (-m)) :=
      Real.log_le_log h1 (by linarith)
    rwa [Real.log_exp] at h2

/-- Witness for C5 at the concrete scenario's fixed arguments, with
`β = 1/10 > 0` discharged numerically. -/
theorem dpo_loss_monotone_c5_witness :
    StrictAnti (fun pc => dpo_loss pc (-3) (-2) (-2) (1/10) 0) ∧
    Filter.Tendsto dpoLossOfMargin Filter.atTop (nhds 0) ∧
    Filter.Tendsto dpoLossOfMargin Filter.atBot Filter.atTop := by
  have h := dpo_loss_monotone_c5 (-3) (-2) (-2) (1/10) (by norm_num)
  exact ⟨h.2.1, h.2.2.1, h.2.2.2⟩

/-- Claim C7: `repeat_kv` with repeat factor 1 is the identity; otherwise
it maps a list of `n_kv` heads to one of `n_kv * n_rep` heads in which
output head `h` is input head `h / n_rep`, so kv head `g` serves exactly
the contiguous output heads `[g·n_rep, (g+1)·n_rep)`. -/
theorem repeat_kv_spec_c7 {α : Type} (n_rep : ℕ) (x : List α) (d : α) :
    repeat_kv 1 x = x ∧
    (repeat_kv n_rep x).length = x.length * n_rep ∧
    (∀ hidx, hidx < x.length * n_rep →
      (repeat_kv n_rep x).getD hidx d = x.getD (hidx / n_rep) d) ∧
    (0 < n_rep → ∀ g hidx,
      hidx / n_rep = g ↔ g * n_rep ≤ hidx ∧ hidx < (g + 1) * n_rep) := by
  refine ⟨by simp [repeat_kv], ?_, ?_, ?_⟩
  · by_cases h1 : n_rep = 1
    · subst h1; simp [repeat_kv]
    · rw [repeat_kv, if_neg h1]
      exact repeatHeads_length n_rep x
  · intro hidx hbound
    by_cases h1 : n_rep = 1
    · subst h1; simp [repeat_kv, Nat.div_one]
    · rw [repeat_kv, if_neg h1]
      exact repeatHeads_getD n_rep x d hidx hbound
  · intro hn g hidx
    constructor
    · intro hq
      constructor
      · rw [← hq]
        exact Nat.div_mul_le_self hidx n_rep
      · calc hidx = n_rep * (hidx / n_rep) + hidx % n_rep := (Nat.div_add_mod _ _).symm
          _ < n_rep * (hidx / n_rep) + n_rep :=
            Nat.add_lt_add_left (Nat.mod_lt _ hn) _
          _ = (hidx / n_rep + 1) * n_rep := by ring
          _ = (g + 1) * n_rep := by rw [hq]
    · rintro ⟨h1, h2⟩
      exact Nat.div_eq_of_lt_le h1 h2

/-- Witness for C7: repeat factor 2 on a two-head list, output head 3
reads input head 3 / 2 = 1. -/
theorem repeat_kv_spec_c7_witness :
    repeat_kv 1 [5, 6] = [5, 6] ∧ (repeat_kv 2 [5, 6]).getD 3 0 = [5, 6].getD 1 0 := by
  refine ⟨(repeat_kv_spec_c7 1 [5, 6] 0).1, ?_⟩
  have h := (repeat_kv_spec_c7 2 [5, 6] 0).2.2.1 3 (by decide)
  simpa using h

lemma sum_range_two_mul (f : ℕ → ℝ) (k : ℕ) :
    ∑ j ∈ Finset.range (2 * k), f j =
      ∑ p ∈ Finset.range k, (f (2 * p) + f (2 * p + 1)) := by
  induction k with
  | zero => simp
  | succ n ih =>
    have h2 : 2 * (n + 1) = 2 * n + 1 + 1 := by ring
    rw [h2, Finset.sum_range_succ, Finset.sum_range_succ, ih, Finset.sum_range_succ]
    ring

/-- Claim C6: the rotary position embedding preserves Euclidean norm:
for every head vector, position and (even) head dimension,
`‖apply_rope v‖ = ‖v‖`, because each table entry is a unit-magnitude
rotation applied pairwise to adjacent components. -/
theorem rope_norm_c6 (cfg : ModelConfig) (t : ℕ) (v : ℕ → ℝ)
    (heven : cfg.head_dim % 2 = 0) :
    vecNorm cfg.head_dim (applyRopeVec cfg t v) = vecNorm cfg.head_dim v := by
  obtain ⟨k, hk⟩ : ∃ k, cfg.head_dim = 2 * k := ⟨cfg.head_dim / 2, by omega⟩
  unfold vecNorm
  rw [hk, sum_range_two_mul, sum_range_two_mul]
  congr 1
  apply Finset.sum_congr rfl
  intro p _
  have hje : (2 * p) % 2 = 0 := by omega
  have hjo : (2 * p + 1) % 2 = 1 := by omega
  have hde : (2 * p) / 2 = p := by omega
  have hdo : (2 * p + 1) / 2 = p := by omega
  have hsub : 2 * p + 1 - 1 = 2 * p := by omega
  simp only [applyRopeVec, hje, hjo, hde, hdo, hsub]
  norm_num
  linear_combination (v (2 * p) ^ 2 + v (2 * p + 1) ^ 2) *
    Real.sin_sq_add_cos_sq (ropeAngle cfg t p)

/-! ## Concrete instances for witnesses

The concrete scenario of spec §8: embedding width 8, 2 layers, 2 query
heads, 1 kv head, feed-forward width 16, vocabulary 16, max length 8. -/

noncomputable def exampleConfig : ModelConfig where
  d_model := 8
  n_layers := 2
  n_heads := 2
  n_kv_heads := 1
  d_ff := 16
  vocab_size := 16
  max_seq_length := 8
  norm_eps := 1e-5
  rope_theta := 10000

noncomputable def zeroBlock : BlockWeights where
  attention := ⟨fun _ _ => 0, fun _ _ => 0, fun _ _ => 0, fun _ _ => 0⟩
  ffn := ⟨fun _ _ => 0, fun _ _ => 0, fun _ _ => 0⟩
  attention_norm := fun _ => 1
  ffn_norm := fun _ => 1

noncomputable def exampleWeights : ModelWeights where
  token_embedding := fun tok j => ((tok + j : ℕ) : ℝ) / 100
  layers := [zeroBlock, zeroBlock]
  norm := fun _ => 1

/-- Witness for C6 at the example config (head dimension 4) and a concrete
head vector and position. -/
theorem rope_norm_c6_witness :
    vecNorm exampleConfig.head_dim (applyRopeVec exampleConfig 3 (fun j => (j : ℝ))) =
      vecNorm exampleConfig.head_dim (fun j => (j : ℝ)) :=
  rope_norm_c6 exampleConfig 3 (fun j => (j : ℝ)) (by decide)

/-- Claim C1: for a batch of equal-length token-id rows, `forward` returns
a logits tensor of shape (batch, seq_len, vocab_size) whenever the
sequence length is at most `max_seq_length` (each returned row has
`seq_len` positions, each position a vocabulary-indexed row), and fails
(the assert raises, modelled by `none`) exactly when the length exceeds
`max_seq_length` — the input is never truncated. -/
theorem forward_shape_c1 (cfg : ModelConfig) (w : ModelWeights)
    (batch : List (List ℕ)) (L : ℕ) (hrows : ∀ seq ∈ batch, seq.length = L) :
    (L ≤ cfg.max_seq_length →
      ∃ out, forward cfg w batch L = some out ∧ out.length = batch.length ∧
        ∀ row ∈ out, row.length = L) ∧
    (cfg.max_seq_length < L → forward cfg w batch L = none) := by
  constructor
  · intro hle
    refine ⟨batch.map (forwardSeq cfg w), ?_, by simp, ?_⟩
    · unfold forward
      rw [if_pos hle]
    · intro row hrow
      obtain ⟨seq, hseq, rfl⟩ := List.mem_map.mp hrow
      unfold forwardSeq
      simp [hrows seq hseq]
  · intro hgt
    unfold forward
    rw [if_neg (by omega)]

/-- Witness for C1: a batch of one length-4 sequence against the example
config (max length 8): the shape conclusion holds and the failure branch
is vacuous. -/
theorem forward_shape_c1_witness :
    (4 ≤ exampleConfig.max_seq_length →
      ∃ out, forward exampleConfig exampleWeights [[1, 2, 3, 4]] 4 = some out ∧
        out.length = 1 ∧ ∀ row ∈ out, row.length = 4) ∧
    (exampleConfig.max_seq_length < 4 →
      forward exampleConfig exampleWeights [[1, 2, 3, 4]] 4 = none) := by
  have h := forward_shape_c1 exampleConfig exampleWeights [[1, 2, 3, 4]] 4 (by decide)
  simpa using h

/-! ## Causality lemmas (for C3)

If two hidden-state families agree at every position `≤ i` then every
stage of a transformer block produces outputs that agree at every
position `≤ i`: the per-position stages (RMSNorm, feed-forward,
residuals) are pointwise, and attention at position `t` reads other
positions only through keys/values at `u ≤ t` because the causal mask
zeroes the weight of every `u > t`. -/

lemma attnScore_congr (cfg : ModelConfig) (aw : AttnWeights) {h h' : ℕ → ℕ → ℝ}
    {t u : ℕ} (ht : h t = h' t) (hu : h u = h' u) (hd : ℕ) :
    attnScore cfg aw h t hd u = attnScore cfg aw h' t hd u := by
  unfold attnScore qRot kRot qProj kProj
  rw [ht, hu]

lemma attnWeight_congr (cfg : ModelConfig) (aw : AttnWeights) {h h' : ℕ → ℕ → ℝ}
    {i t : ℕ} (hag : ∀ u, u ≤ i → h u = h' u) (hti : t ≤ i) (hd u : ℕ) :
    attnWeight cfg aw h t hd u = attnWeight cfg aw h' t hd u := by
  unfold attnWeight
  by_cases hut : u ≤ t
  · rw [if_pos hut, if_pos hut,
      attnScore_congr cfg aw (hag t hti) (hag u (hut.trans hti)) hd]
    congr 1
    apply Finset.sum_congr rfl
    intro u' hu'
    have hu'le : u' ≤ t := Nat.lt_succ_iff.mp (Finset.mem_range.mp hu')
    rw [attnScore_congr cfg aw (hag t hti) (hag u' (hu'le.trans hti)) hd]
  · rw [if_neg hut, if_neg hut]

lemma vProj_congr (cfg : ModelConfig) (aw : AttnWeights) {h h' : ℕ → ℕ → ℝ}
    {u : ℕ} (hu : h u = h' u) (g : ℕ) : vProj cfg aw h u g = vProj cfg aw h' u g := by
  unfold vProj
  rw [hu]

lemma attention_congr (cfg : ModelConfig) (aw : AttnWeights) (L : ℕ)
    {h h' : ℕ → ℕ → ℝ} {i t : ℕ} (hag : ∀ u, u ≤ i → h u = h' u) (hti : t ≤ i) :
    attention cfg aw L h t = attention cfg aw L h' t := by
  funext c
  unfold attention
  apply Finset.sum_congr rfl
  intro f _
  congr 1
  unfold attnCtx
  apply Finset.sum_congr rfl
  intro u _
  by_cases hut : u ≤ t
  · rw [attnWeight_congr cfg aw hag hti (f / cfg.head_dim) u,
      vProj_congr cfg aw (hag u (hut.trans hti)) (f / cfg.head_dim / cfg.kv_repeat)]
  · have hw : attnWeight cfg aw h t (f / cfg.head_dim) u = 0 := by
      unfold attnWeight
      rw [if_neg hut]
    have hw' : attnWeight cfg aw h' t (f / cfg.head_dim) u = 0 := by
      unfold attnWeight
      rw [if_neg hut]
    rw [hw, hw', zero_mul, zero_mul]

lemma blockAttnStage_congr (cfg : ModelConfig) (bw : BlockWeights) (L : ℕ)
    {h h' : ℕ → ℕ → ℝ} {i : ℕ} (hag : ∀ u, u ≤ i → h u = h' u) :
    ∀ t, t ≤ i → blockAttnStage cfg bw L h t = blockAttnStage cfg bw L h' t := by
  have hnorm : ∀ u, u ≤ i →
      rmsnorm cfg.d_model cfg.norm_eps bw.attention_norm (h u) =
        rmsnorm cfg.d_model cfg.norm_eps bw.attention_norm (h' u) := by
    intro u hu
    rw [hag u hu]
  intro t ht
  funext c
  unfold blockAttnStage
  rw [hag t ht, attention_congr cfg bw.attention L hnorm ht]

lemma blockForward_congr (cfg : ModelConfig) (bw : BlockWeights) (L : ℕ)
    {h h' : ℕ → ℕ → ℝ} {i : ℕ} (hag : ∀ u, u ≤ i → h u = h' u) :
    ∀ t, t ≤ i → blockForward cfg bw L h t = blockForward cfg bw L h' t := by
  intro t ht
  funext c
  unfold blockForward
  rw [blockAttnStage_congr cfg bw L hag t ht]

lemma foldl_blocks_congr (cfg : ModelConfig) (L : ℕ) (layers : List BlockWeights)
    {i : ℕ} :
    ∀ {h h' : ℕ → ℕ → ℝ}, (∀ u, u ≤ i → h u = h' u) →
      ∀ t, t ≤ i →
        (layers.foldl (fun acc bw => blockForward cfg bw L acc) h) t =
          (layers.foldl (fun acc bw => blockForward cfg bw L acc) h') t := by
  induction layers with
  | nil =>
    intro h h' hag t ht
    exact hag t ht
  | cons bw rest ih =>
    intro h h' hag t ht
    simp only [List.foldl_cons]
    exact ih (fun u hu => blockForward_congr cfg bw L hag u hu) t ht

/-- Claim C3 (two-run noninterference): for two equal-length token
sequences within `max_seq_length` that agree at every position `≤ i`, the
logits at every position `≤ i` coincide — a token at a position `> i`
never changes the logits at positions `≤ i` (dropout 0 / eval behaviour). -/
theorem causality_c3 (cfg : ModelConfig) (w : ModelWeights) (s s' : List ℕ) (i : ℕ)
    (hlen : s.length = s'.length) (_hmax : s.length ≤ cfg.max_seq_length)
    (hagree : ∀ t, t ≤ i → s.getD t 0 = s'.getD t 0) :
    ∀ t, t ≤ i →
      (forwardSeq cfg w s).getD t (fun _ => 0) =
        (forwardSeq cfg w s').getD t (fun _ => 0) := by
  have hembed : ∀ u, u ≤ i → embedSeq w s u = embedSeq w s' u := by
    intro u hu
    unfold embedSeq
    rw [hagree u hu]
  have hfinal : ∀ t, t ≤ i → hiddenFinal cfg w s t = hiddenFinal cfg w s' t := by
    intro t ht
    unfold hiddenFinal
    rw [hlen]
    exact foldl_blocks_congr cfg s'.length w.layers hembed t ht
  have hlog : ∀ t, t ≤ i → logitsAt cfg w s t = logitsAt cfg w s' t := by
    intro t ht
    unfold logitsAt
    funext v
    rw [hfinal t ht]
  intro t ht
  unfold forwardSeq
  rw [hlen]
  by_cases hlt : t < s'.length
  · have hb : t < ((List.range s'.length).map (logitsAt cfg w s)).length := by
      simpa using hlt
    have hb' : t < ((List.range s'.length).map (logitsAt cfg w s')).length := by
      simpa using hlt
    rw [List.getD_eq_getElem _ _ hb, List.getD_eq_getElem _ _ hb']
    simp only [List.getElem_map, List.getElem_range]
    exact hlog t ht
  · push_neg at hlt
    rw [List.getD_eq_default _ _ (by simpa using hlt),
      List.getD_eq_default _ _ (by simpa using hlt)]

/-- Witness for C3: sequences `[1,2,3]` and `[1,2,9]` agree at positions
`≤ 1`; the logits at position 1 coincide.  Hypotheses (equal length,
length within max, prefix agreement) are discharged by `decide`. -/
theorem causality_c3_witness :
    (forwardSeq exampleConfig exampleWeights [1, 2, 3]).getD 1 (fun _ => 0) =
      (forwardSeq exampleConfig exampleWeights [1, 2, 9]).getD 1 (fun _ => 0) :=
  causality_c3 exampleConfig exampleWeights [1, 2, 3] [1, 2, 9] 1 (by decide) (by decide)
    (by decide) 1 le_rfl

/-! ## SFT masking lemmas (for C8) -/

lemma getD_drop {α : Type} (l : List α) (n t : ℕ) (d : α) :
    (l.drop n).getD t d = l.getD (n + t) d := by
  simp [List.getD_eq_getD_get?, List.getElem?_drop, List.get?_eq_getElem?]

lemma charTokenize_length (maxLen : ℕ) (text : List Char) :
    (charTokenize maxLen text).length = maxLen := by
  unfold charTokenize
  simp only [List.length_append, List.length_replicate, List.length_map, List.length_take]
  omega

lemma sftLabels_length (maxLen : ℕ) (mi : Bool) (system user assistant : List Char) :
    (sftLabels maxLen mi system user assistant).length = maxLen := by
  unfold sftLabels
  cases mi
  · simp only [Bool.false_eq_true, if_false, List.length_map]
    exact charTokenize_length _ _
  · simp only [if_true, List.length_mapIdx, List.length_map]
    exact charTokenize_length _ _

lemma sftLabels_getD_lt (maxLen : ℕ) (system user assistant : List Char) (t : ℕ)
    (ht : t < min ((fullText system user assistant).length - assistant.length) maxLen) :
    (sftLabels maxLen true system user assistant).getD t 0 = -100 := by
  have htm : t < maxLen := lt_of_lt_of_le ht (min_le_right _ _)
  have hlen : t < (sftLabels maxLen true system user assistant).length := by
    rw [sftLabels_length]; exact htm
  rw [List.getD_eq_getElem _ _ hlen]
  unfold sftLabels
  simp only [if_pos]
  rw [List.getElem_mapIdx]
  rw [if_pos ht]

/-- Claim C8, amended: the prompt/response boundary is
`min(len(full_text) - len(assistant_text), max_seq_length)`; every label
position strictly before it is set to -100, such a position is never
consumed as a target by the shifted cross-entropy, and the loss value
only depends on the logit rows at the kept (non-ignored) target
positions. -/
theorem sft_prompt_mask_c8 (maxLen : ℕ) (system user assistant : List Char) :
    (∀ t, t < min ((fullText system user assistant).length - assistant.length) maxLen →
      (sftLabels maxLen true system user assistant).getD t 0 = -100) ∧
    (∀ t, t < min ((fullText system user assistant).length - assistant.length) maxLen →
      t ∉ targetPositions (sftLabels maxLen true system user assistant)) ∧
    (∀ {V : ℕ} (zs zs' : List (Fin V → ℝ)),
      (∀ p ∈ cePositions ((sftLabels maxLen true system user assistant).drop 1),
        zs.dropLast.getD p (fun _ => 0) = zs'.dropLast.getD p (fun _ => 0)) →
      sftLoss zs (sftLabels maxLen true system user assistant) =
        sftLoss zs' (sftLabels maxLen true system user assistant)) := by
  refine ⟨fun t ht => sftLabels_getD_lt maxLen system user assistant t ht, ?_, ?_⟩
  · intro t ht hmem
    unfold targetPositions at hmem
    obtain ⟨t', ht', hteq⟩ := List.mem_map.mp hmem
    have hkept := of_decide_eq_true (List.mem_filter.mp ht').2
    have hval : ((sftLabels maxLen true system user assistant).drop 1).getD t' 0 = -100 := by
      rw [getD_drop]
      exact sftLabels_getD_lt maxLen system user assistant (1 + t') (by omega)
    exact hkept hval
  · intro V zs zs' hag
    unfold sftLoss crossEntropyIgnore
    congr 1
    apply congrArg List.sum
    apply List.map_congr_left
    intro p hp
    rw [hag p hp]

/-- Witness for C8 at the concrete example system="a", user="b",
assistant="c", max length 8 (boundary `min(7-1, 8) = 6`): position 0 is
masked and is not a loss target. -/
theorem sft_prompt_mask_c8_witness :
    (sftLabels 8 true ['a'] ['b'] ['c']).getD 0 0 = -100 ∧
    0 ∉ targetPositions (sftLabels 8 true ['a'] ['b'] ['c']) := by
  have h := sft_prompt_mask_c8 8 ['a'] ['b'] ['c']
  exact ⟨h.1 0 (by decide), h.2.1 0 (by decide)⟩

/-- Claim C8 as stated is false at a concrete input: with system="a",
user="b", assistant="c" and max length 8, the full text has 7 characters,
yet label position 7 — a padding position, not a response token — is
consumed as a (non-ignored) target by the cross-entropy, because padding
labels are 0, not -100.  So not only response tokens contribute to the
loss. -/
theorem sft_padding_contributes_c8 :
    7 ∈ targetPositions (sftLabels 8 true ['a'] ['b'] ['c']) ∧
    (fullText ['a'] ['b'] ['c']).length ≤ 7 := by decide

/-! ## DPO dataset loading lemmas (for C9) -/

lemma loadPairs_ok (lines : List (Option PrefRecord)) (hnone : none ∉ lines) :
    ∃ rs, loadPairs lines = Except.ok rs ∧ rs.length = lines.length := by
  induction lines with
  | nil => exact ⟨[], rfl, rfl⟩
  | cons l rest ih =>
    cases l with
    | none => exact absurd (List.mem_cons_self none rest) hnone
    | some r =>
      obtain ⟨rs, hrs, hlen⟩ := ih (fun h => hnone (List.mem_cons_of_mem _ h))
      refine ⟨r :: rs, ?_, by simp [hlen]⟩
      simp [loadPairs, hrs, Except.map]

lemma loadPairs_error (lines : List (Option PrefRecord)) (hmem : none ∈ lines) :
    ∃ e, loadPairs lines = Except.error e := by
  induction lines with
  | nil => simp at hmem
  | cons l rest ih =>
    cases l with
    | none => exact ⟨_, rfl⟩
    | some r =>
      have hrest : none ∈ rest := by
        rcases List.mem_cons.mp hmem with h | h
        · exact absurd h.symm (by simp)
        · exact h
      obtain ⟨e, he⟩ := ih hrest
      exact ⟨e, by simp [loadPairs, he, Except.map]⟩

/-- Claim C9 as stated is false at a concrete input: a preference file
with one well-formed line followed by one malformed (non-JSON) line makes
`DPODataset.__init__` raise out of `json.loads` — the run aborts instead
of skipping the record. -/
theorem dpo_malformed_aborts_c9 :
    loadPairs [some ⟨some "q", some "g", some "b"⟩, none] =
      Except.error "json.loads: JSONDecodeError" := rfl

/-- Claim C9, amended: a line that is not valid JSON aborts loading with
the parse error; lines that do parse are all kept — none skipped, the
dataset size equals the line count — and a record missing the
prompt/chosen/rejected fields is kept with the missing fields read as
empty strings. -/
theorem dpo_loading_c9 (lines : List (Option PrefRecord)) :
    (none ∉ lines → ∃ rs, loadPairs lines = Except.ok rs ∧ rs.length = lines.length) ∧
    (none ∈ lines → ∃ e, loadPairs lines = Except.error e) ∧
    (∀ maxLen p c r,
      dpoGetItem maxLen ⟨p, c, r⟩ =
        { chosen_ids :=
            charTokenize maxLen ((p.getD "").toList ++ ['\n'] ++ (c.getD "").toList)
          rejected_ids :=
            charTokenize maxLen ((p.getD "").toList ++ ['\n'] ++ (r.getD "").toList)
          prompt_length := min (p.getD "").toList.length maxLen }) :=
  ⟨loadPairs_ok lines, loadPairs_error lines, fun _ _ _ _ => rfl⟩

/-- Witness for C9: a two-line file with no malformed line loads all
records (including one with every field missing), and a file whose only
line is malformed errors out. -/
theorem dpo_loading_c9_witness :
    (∃ rs, loadPairs [some ⟨some "p", some "c", some "r"⟩, some ⟨none, none, none⟩] =
        Except.ok rs ∧ rs.length = 2) ∧
    (∃ e, loadPairs [none] = Except.error e) := by
  refine ⟨?_, (dpo_loading_c9 [none]).2.1 (by decide)⟩
  have h := (dpo_loading_c9 [some ⟨some "p", some "c", some "r"⟩,
    some ⟨none, none, none⟩]).1 (by decide)
  simpa using h

/-- Claim C10: `get_log_probs` masks response positions by testing the
realised token id against 0, so the summed log-probability ranges exactly
over the response positions with a non-zero token — a position holding
token id 0 contributes 0 whether it is trailing padding or a genuine
zero id; consequently two texts that differ only in characters whose
codes are both ≡ 0 (mod 32000) tokenise identically and receive the same
log-probability. -/
theorem get_log_probs_zero_c10 (cfg : ModelConfig) (w : ModelWeights)
    (input_ids : List ℕ) (pl : ℕ) :
    (get_log_probs cfg w input_ids pl =
      ∑ r ∈ (Finset.range (input_ids.length - pl)).filter
          (fun r => input_ids.getD (pl + r) 0 ≠ 0),
        (if hv : input_ids.getD (pl + r) 0 < cfg.vocab_size then
          logSoftmaxAt (logitsAt cfg w input_ids (pl - 1 + r))
            ⟨input_ids.getD (pl + r) 0, hv⟩
         else 0)) ∧
    (∀ maxLen : ℕ, ∀ s1 s2 : List Char, s1.length = s2.length →
      (∀ p, p < s1.length →
        s1.getD p ' ' = s2.getD p ' ' ∨
          ((s1.getD p ' ').toNat % 32000 = 0 ∧ (s2.getD p ' ').toNat % 32000 = 0)) →
      charTokenize maxLen s1 = charTokenize maxLen s2 ∧
        get_log_probs cfg w (charTokenize maxLen s1) pl =
          get_log_probs cfg w (charTokenize maxLen s2) pl) := by
  constructor
  · unfold get_log_probs
    rw [Finset.sum_filter]
    apply Finset.sum_congr rfl
    intro r _
    by_cases h0 : input_ids.getD (pl + r) 0 = 0
    · simp [h0]
    · simp [h0]
  · intro maxLen s1 s2 hlen hag
    have htok : charTokenize maxLen s1 = charTokenize maxLen s2 := by
      unfold charTokenize
      have hmap : (s1.take maxLen).map (fun c => c.toNat % 32000) =
          (s2.take maxLen).map (fun c => c.toNat % 32000) := by
        apply List.ext_getElem
        · simp [hlen]
        · intro p hp1 hp2
          simp only [List.getElem_map]
          rw [List.getElem_take s1, List.getElem_take s2]
          have hpl : p < s1.length := by
            simp only [List.length_map, List.length_take] at hp1
            omega
          have hpl' : p < s2.length := hlen ▸ hpl
          have hp := hag p hpl
          rw [List.getD_eq_getElem _ _ hpl, List.getD_eq_getElem _ _ hpl'] at hp
          rcases hp with h | ⟨h1, h2⟩
          · rw [h]
          · rw [h1, h2]
      rw [hmap]
    exact ⟨htok, by rw [htok]⟩

/-- Witness for C10: the NUL character and the character with code 32000
both tokenise to id 0; the hypotheses (equal length, agreement up to
zero-id characters) hold by `decide`. -/
theorem get_log_probs_zero_c10_witness :
    charTokenize 4 ['\x00'] = charTokenize 4 [Char.ofNat 32000] ∧
    get_log_probs exampleConfig exampleWeights (charTokenize 4 ['\x00']) 1 =
      get_log_probs exampleConfig exampleWeights (charTokenize 4 [Char.ofNat 32000]) 1 :=
  (get_log_probs_zero_c10 exampleConfig exampleWeights [1, 0, 2] 1).2 4
    ['\x00'] [Char.ofNat 32000] (by decide) (by decide)

end SmartTool
